import Mathlib

/-!
Shallow embedding of `src/update_ffmpeg.py` (class `FFmpegUpdater`) and
verification of its specification.

Strings are handled through their character lists; the helpers below embed
the Python string primitives used by the source (`str.split(sep)`,
`str.split()`, `sep in s`, `str.strip()`, `str.lower()`, `str.isdigit()`,
lexicographic `<` on strings).
-/

/-- Python `s.split(c)` for a single-character separator, generalized to a
character predicate: keeps empty fields, and splitting the empty string
yields one empty field, as in Python. -/
def splitOnPred (p : Char → Bool) : List Char → List (List Char)
  | [] => [[]]
  | c :: cs =>
    if p c then [] :: splitOnPred p cs
    else
      match splitOnPred p cs with
      | [] => [[c]]
      | t :: ts => (c :: t) :: ts

/-- Python `s.split(sep)` for a multi-character separator: leftmost,
non-overlapping occurrences, empty fields kept. -/
def pySplitSub (sep : List Char) : List Char → List (List Char)
  | [] => [[]]
  | c :: cs =>
    if h : sep ≠ [] ∧ sep.isPrefixOf (c :: cs) = true then
      [] :: pySplitSub sep ((c :: cs).drop sep.length)
    else
      match pySplitSub sep cs with
      | [] => [[c]]
      | t :: ts => (c :: t) :: ts
termination_by l => l.length
decreasing_by
  · simp only [List.length_drop]
    have hpos : 0 < sep.length := List.length_pos.mpr h.1
    simp only [List.length_cons]
    omega
  · simp [Nat.lt_succ_self]

/-- Python `sub in s` (substring containment). -/
def containsSubList (pat : List Char) : List Char → Bool
  | [] => pat.isEmpty
  | c :: cs => pat.isPrefixOf (c :: cs) || containsSubList pat cs

/-- Python `s.strip()`. -/
def trimChars (l : List Char) : List Char :=
  ((l.dropWhile Char.isWhitespace).reverse.dropWhile Char.isWhitespace).reverse

/-- Python `s.split()` (split on whitespace runs, no empty fields). -/
def pySplitWs (l : List Char) : List (List Char) :=
  (splitOnPred Char.isWhitespace l).filter (fun t => t ≠ [])

/-- Python `s1 < s2` on strings: strict lexicographic order on code points. -/
def pyStrLt : List Char → List Char → Bool
  | [], [] => false
  | [], _ :: _ => true
  | _ :: _, [] => false
  | a :: as, b :: bs => if a < b then true else if b < a then false else pyStrLt as bs

/-- A date-shaped token: Python `part.isdigit() and len(part) == 8`. -/
def isDateToken (part : List Char) : Bool :=
  part.length == 8 && part.all Char.isDigit

/-- Embedding of `FFmpegUpdater.get_version_date` (src/update_ffmpeg.py lines 29-40):
split the version string on `-`, scan the parts in reverse order and return
the first 8-character all-digit part, `None` if there is none. -/
def get_version_date (version_str : String) : Option String :=
  ((splitOnPred (fun c => c == '-') version_str.toList).reverse.find? isDateToken).map
    (fun part => String.mk part)

/-- Embedding of `FFmpegUpdater.compare_versions` (src/update_ffmpeg.py lines 175-193):
`True` if either version string is falsy; `True` if either date is missing;
`False` on equal dates; otherwise Python `new_date > current_date`. -/
def compare_versions (current_version new_version : String) : Bool :=
  if current_version = "" ∨ new_version = "" then true
  else
    match get_version_date current_version, get_version_date new_version with
    | some current_date, some new_date =>
      if new_date = current_date then false
      else pyStrLt current_date.toList new_date.toList
    | _, _ => true

/-- Parsing of a `<tool> version <ver> ...` line, shared by
`get_current_version` (lines 62-64) and `get_extracted_version` (lines
166-168): if the line contains `version`, take the text after its first
occurrence (Python `split(version)[1]`), strip it and take the first
whitespace-delimited token; an out-of-range index raises and is caught,
yielding `None`, as is a line without the marker. -/
def parseVersionLine (version_line : String) : Option String :=
  if containsSubList ("version").toList version_line.toList then
    match (pySplitSub ("version").toList version_line.toList).get? 1 with
    | none => none
    | some afterMarker =>
      match pySplitWs (trimChars afterMarker) with
      | [] => none
      | version_part :: _ => some (String.mk version_part)
  else none

/-- Outcome of a `subprocess.run` invocation of the tool with `-version`:
`none` models a timeout or other raised error (caught, giving no version). -/
structure RunResult where
  returncode : Int
  stdoutLines : List String
deriving DecidableEq

/-- Embedding of `FFmpegUpdater.download_ffmpeg` (src/update_ffmpeg.py lines 77-111),
abstracted over the network: `httpOk` is whether the GET and the streaming
loop succeed (otherwise the `requests.RequestException` handler returns
`None`), `finalSize` is `tar_file.stat().st_size` after the download. A file
under 1 MiB is rejected (`None`); otherwise the archive path is returned. -/
def download_ffmpeg (httpOk : Bool) (finalSize : Nat) : Option String :=
  if httpOk = false then none
  else if finalSize < 1024 * 1024 then none
  else some ("ffmpeg-master-latest-linux64-gpl.tar.xz")

/-- An immediate child of the extraction directory, as seen by
`extract_dir.iterdir()`: its name and whether it is a directory. -/
structure DirEntry where
  name : String
  isDir : Bool
deriving DecidableEq

/-- The filter of src/update_ffmpeg.py line 125:
`d.is_dir() and ffmpeg in d.name.lower()`. -/
def isFFmpegDir (d : DirEntry) : Bool :=
  d.isDir && containsSubList ("ffmpeg").toList (d.name.toList.map Char.toLower)

/-- Embedding of `FFmpegUpdater.extract_ffmpeg` (src/update_ffmpeg.py lines 113-142),
abstracted over the `tar` subprocess: `tarOk` is whether `tar -xJf` exits
zero (`check=True` raises otherwise and the handler returns `None`);
`children` are the immediate children of the extraction directory in
listing order. Returns the first matching child, `None` if none match. -/
def extract_ffmpeg (tarOk : Bool) (children : List DirEntry) : Option DirEntry :=
  if tarOk = false then none
  else
    match children.filter isFFmpegDir with
    | [] => none
    | d :: _ => some d

/-- One file of a directory tree: its relative path (as components) and its
permission mode. Directories are implicit in the paths. -/
structure FileEntry where
  path : List String
  mode : Nat
deriving DecidableEq

/-- A directory tree as the list of its files. -/
structure DirTree where
  files : List FileEntry
deriving DecidableEq

/-- Existence of the file `bin/ffmpeg` in a tree: the check on line 199
of src/update_ffmpeg.py (and line 147 for the staged tree). -/
def hasBinFFmpeg (t : DirTree) : Bool :=
  t.files.any (fun f => f.path == ["bin", "ffmpeg"])

/-- Python chmod with mode `0o755` on one file of a tree. -/
def chmodPath (t : DirTree) (p : List String) : DirTree :=
  ⟨t.files.map (fun f => if f.path = p then { f with mode := 0o755 } else f)⟩

/-- The chmod loop of src/update_ffmpeg.py lines 219-223: every regular file
that is an immediate child of `bin/` (`bin_dir.glob(*)` with `is_file()`)
is set to mode `0o755`; deeper entries are directories of `bin/`, skipped. -/
def chmodBinFiles (t : DirTree) : DirTree :=
  ⟨t.files.map (fun f =>
    match f.path with
    | [d, _] => if d = "bin" then { f with mode := 0o755 } else f
    | _ => f)⟩

/-- Embedding of `FFmpegUpdater.get_extracted_version` (src/update_ffmpeg.py lines
144-173): absent `bin/ffmpeg` gives `None` with no tree change; otherwise
the binary is chmod-ed to `0o755`, then run (`run` abstracts the
subprocess); a non-zero exit, an empty stdout (the `splitlines()[0]`
IndexError is caught) or an unparsable line gives `None`. Returns the
probed version and the tree after the call. -/
def get_extracted_version (run : Option RunResult) (extracted : DirTree) :
    Option String × DirTree :=
  if hasBinFFmpeg extracted = false then (none, extracted)
  else
    let extracted1 := chmodPath extracted ["bin", "ffmpeg"]
    match run with
    | none => (none, extracted1)
    | some r =>
      if r.returncode = 0 then
        match r.stdoutLines with
        | [] => (none, extracted1)
        | version_line :: _ => (parseVersionLine version_line, extracted1)
      else (none, extracted1)

/-- The filesystem regions `install_ffmpeg` touches: the contents at the
install path, at the sibling `<install_dir>.backup` path, and at the staged
source path (`none` = nothing exists at that path). -/
structure FS where
  install : Option DirTree
  backup : Option DirTree
  staged : Option DirTree
deriving DecidableEq

/-- Injection point for a raised filesystem error inside the `try` block of
`install_ffmpeg`: the named operation raises instead of taking effect (the
`except` handler of lines 234-244 then runs). `noFail` injects nothing; an
injection point whose operation is not executed on the taken path injects
nothing either. -/
inductive FailPoint where
  | noFail
  | rmStaleBackup
  | moveToBackup
  | mkdirParent
  | moveIntoPlace
  | chmodLoop
  | removeBackup
deriving DecidableEq

/-- The `except` handler of src/update_ffmpeg.py lines 234-244:
`backupAssigned` is whether the local `backup_dir` is non-`None` (line 206
ran, i.e. the install path existed). If so and a backup directory exists,
whatever is at the install path is deleted and the backup is moved back;
otherwise nothing is touched. The call reports failure. -/
def installExcept (backupAssigned : Bool) (s : FS) : Bool × FS :=
  if backupAssigned = true ∧ s.backup.isSome = true then
    (false, { s with install := s.backup, backup := none })
  else (false, s)

/-- Lines 213-231 of `install_ffmpeg`: create the parent directory, move the
staged tree into the install path, chmod the `bin/` files, and on success
delete the backup if one was assigned and exists. A failure injected at one
of these operations raises with the state reached so far and runs the
handler. -/
def installMoveAndChmod (backupAssigned : Bool) (fp : FailPoint) (src : DirTree)
    (s : FS) : Bool × FS :=
  if fp = FailPoint.mkdirParent then installExcept backupAssigned s
  else if fp = FailPoint.moveIntoPlace then installExcept backupAssigned s
  else
    let s1 : FS := { s with install := some src, staged := none }
    if fp = FailPoint.chmodLoop then installExcept backupAssigned s1
    else
      let s2 : FS := { s1 with install := some (chmodBinFiles src) }
      if backupAssigned = true ∧ s2.backup.isSome = true then
        if fp = FailPoint.removeBackup then installExcept backupAssigned s2
        else (true, { s2 with backup := none })
      else (true, s2)

/-- Embedding of `FFmpegUpdater.install_ffmpeg` (src/update_ffmpeg.py lines 195-244) on
the filesystem state `s`, with a failure injected at `fp`. The staged tree
must contain `bin/ffmpeg` (else `False`, nothing touched); an existing
install is moved to the backup path (a stale backup there is deleted
first); then the staged tree is moved into place and its `bin/` files made
executable; the backup, if any, is deleted on success and restored by the
handler on failure. -/
def install_ffmpeg (fp : FailPoint) (s : FS) : Bool × FS :=
  match s.staged with
  | none => (false, s)
  | some src =>
    if hasBinFFmpeg src = false then (false, s)
    else if s.install.isSome = true then
      if s.backup.isSome = true ∧ fp = FailPoint.rmStaleBackup then
        installExcept true s
      else
        let sA : FS := { s with backup := none }
        if fp = FailPoint.moveToBackup then installExcept true sA
        else
          installMoveAndChmod true fp src { sA with backup := s.install, install := none }
    else installMoveAndChmod false fp src s

/-- The stage outcomes `FFmpegUpdater.update` (src/update_ffmpeg.py lines
271-332) observes: the result of `get_current_version`, whether
`download_ffmpeg` and `extract_ffmpeg` return a path, the result of
`get_extracted_version`, and the result of `install_ffmpeg`. -/
structure UpdateEnv where
  currentVersion : Option String
  downloadOk : Bool
  extractOk : Bool
  extractedVersion : Option String
  installOk : Bool
deriving DecidableEq

/-- Embedding of `FFmpegUpdater.update` (src/update_ffmpeg.py lines 271-332). Returns
`(success, comparisonPerformed, installAttempted)`: the boolean the method
returns, whether `compare_versions` was called, and whether
`install_ffmpeg` was called. The comparison runs only under
`not force and current_version` (Python truthiness: a `None` or empty
current version skips it); a not-newer comparison returns `True` without
installing. -/
def update (env : UpdateEnv) (force : Bool) : Bool × Bool × Bool :=
  if env.downloadOk = false then (false, false, false)
  else if env.extractOk = false then (false, false, false)
  else
    match env.extractedVersion with
    | none => (false, false, false)
    | some new_version =>
      if new_version = "" then (false, false, false)
      else
        let doCompare : Bool := !force && env.currentVersion.getD ("") != ""
        if doCompare then
          if compare_versions (env.currentVersion.getD ("")) new_version = false then
            (true, true, false)
          else (env.installOk, true, true)
        else (env.installOk, false, true)

/-- The process exit code of `__main__` (src/update_ffmpeg.py line 347):
`exit(0 if success else 1)`. -/
def mainExitCode (success : Bool) : Nat :=
  if success then 0 else 1

theorem getLast_cons_or {α : Type} (a : α) (xs : List α) :
    (a :: xs).getLast? = xs.getLast?.or (some a) := by
  induction xs generalizing a with
  | nil => rfl
  | cons b t ih =>
    rw [List.getLast?_cons_cons, ih b, Option.or_assoc, Option.or_some]

theorem find_rev_getLast {α : Type} (p : α → Bool) (l : List α) :
    l.reverse.find? p = (l.filter p).getLast? := by
  induction l with
  | nil => rfl
  | cons a t ih =>
    rw [List.reverse_cons, List.find?_append, ih]
    cases hp : p a
    · rw [List.find?_cons_of_neg _ (by simp [hp]), List.filter_cons_of_neg (by simp [hp]),
        List.find?_nil, Option.or_none]
    · rw [List.find?_cons_of_pos _ hp, List.filter_cons_of_pos hp, getLast_cons_or]

theorem find_eq_head_filter {α : Type} (p : α → Bool) (l : List α) :
    l.find? p = (l.filter p).head? := by
  induction l with
  | nil => rfl
  | cons a t ih =>
    cases hp : p a
    · rw [List.find?_cons_of_neg _ (by simp [hp]), List.filter_cons_of_neg (by simp [hp]), ih]
    · rw [List.find?_cons_of_pos _ hp, List.filter_cons_of_pos hp, List.head?_cons]

/-- C4: `get_version_date` splits on `-`, scans tokens in reverse and returns
the first (i.e. overall last) token that is exactly 8 characters and
all-numeric, `none` when no such token exists; examples from the spec. -/
theorem get_version_date_spec :
    (∀ s : String, get_version_date s =
      (((splitOnPred (fun c => c == '-') s.toList).filter isDateToken).getLast?).map
        (fun part => String.mk part))
    ∧ (∀ s : String, get_version_date s = none ↔
        ∀ part ∈ splitOnPred (fun c => c == '-') s.toList, isDateToken part = false)
    ∧ (∀ (s : String) (d : String), get_version_date s = some d →
        d.toList ∈ splitOnPred (fun c => c == '-') s.toList ∧
        d.length = 8 ∧ d.toList.all Char.isDigit = true)
    ∧ get_version_date ("N-118193-g5f38c82536-20241229") = some ("20241229")
    ∧ get_version_date ("N-118193-g5f38c82536") = none := by
  refine ⟨?_, ?_, ?_, by decide, by decide⟩
  · intro s
    rw [get_version_date, find_rev_getLast]
  · intro s
    rw [get_version_date]
    simp [List.find?_eq_none]
  · intro s d h
    rw [get_version_date] at h
    obtain ⟨part, hfind, hmk⟩ := Option.map_eq_some'.mp h
    have hmem := List.mem_of_find?_eq_some hfind
    have hp := List.find?_some hfind
    rw [isDateToken, Bool.and_eq_true] at hp
    subst hmk
    refine ⟨List.mem_reverse.mp hmem, ?_, hp.2⟩
    simpa [String.length] using hp.1

theorem get_version_date_spec_witness :
    "20241229".toList ∈ splitOnPred (fun c => c == '-') "N-118193-g5f38c82536-20241229".toList ∧
    "20241229".length = 8 ∧ "20241229".toList.all Char.isDigit = true :=
  get_version_date_spec.2.2.1 ("N-118193-g5f38c82536-20241229") "20241229" (by decide)

/-- C3: `compare_versions` returns `true` when either string is empty, `true`
when either date is missing, `false` on equal dates, and otherwise the
lexicographic comparison `new_date > current_date`; spec examples. -/
theorem compare_versions_spec :
    (∀ c n : String, c = "" ∨ n = "" → compare_versions c n = true)
    ∧ (∀ c n : String, c ≠ "" → n ≠ "" →
        get_version_date c = none ∨ get_version_date n = none →
        compare_versions c n = true)
    ∧ (∀ (c n dc dn : String), c ≠ "" → n ≠ "" →
        get_version_date c = some dc → get_version_date n = some dn →
        compare_versions c n =
          (if dn = dc then false else pyStrLt dc.toList dn.toList))
    ∧ compare_versions ("...-20240101") "...-20241229" = true
    ∧ compare_versions ("...-20241229") "...-20240101" = false := by
  refine ⟨?_, ?_, ?_, by decide, by decide⟩
  · intro c n h
    rw [compare_versions, if_pos h]
  · intro c n hc hn h
    rw [compare_versions, if_neg (not_or.mpr ⟨hc, hn⟩)]
    cases hgc : get_version_date c <;> cases hgn : get_version_date n <;> simp_all
  · intro c n dc dn hc hn hgc hgn
    rw [compare_versions, if_neg (not_or.mpr ⟨hc, hn⟩), hgc, hgn]

theorem compare_versions_spec_witness :
    compare_versions ("") "...-20241229" = true :=
  compare_versions_spec.1 ("") "...-20241229" (Or.inl rfl)

/-- C7: with a successful HTTP transfer, a final file size under 1 MiB makes
`download_ffmpeg` return `None`; a size of 1 MiB or more passes the check
and the archive path is returned. -/
theorem download_ffmpeg_size_check (finalSize : Nat) :
    (finalSize < 1024 * 1024 → download_ffmpeg true finalSize = none)
    ∧ (1024 * 1024 ≤ finalSize →
        download_ffmpeg true finalSize = some ("ffmpeg-master-latest-linux64-gpl.tar.xz")) := by
  constructor
  · intro h
    simp [download_ffmpeg, h]
  · intro h
    simp [download_ffmpeg, Nat.not_lt.mpr h]

theorem download_ffmpeg_size_check_witness :
    download_ffmpeg true 1048575 = none ∧
    download_ffmpeg true 1048576 = some ("ffmpeg-master-latest-linux64-gpl.tar.xz") :=
  ⟨(download_ffmpeg_size_check 1048575).1 (by decide),
   (download_ffmpeg_size_check 1048576).2 (by decide)⟩

/-- C8: after a successful extraction, `extract_ffmpeg` keeps exactly the
immediate children that are directories whose name contains `ffmpeg`
case-insensitively, fails with `None` when none match, and otherwise
returns the first match in listing order. -/
theorem extract_ffmpeg_spec :
    (∀ children : List DirEntry,
      extract_ffmpeg true children = (children.filter isFFmpegDir).head?)
    ∧ (∀ children : List DirEntry,
      extract_ffmpeg true children = children.find? isFFmpegDir)
    ∧ (∀ children : List DirEntry,
      extract_ffmpeg true children = none ↔ ∀ d ∈ children, isFFmpegDir d = false)
    ∧ (∀ (children : List DirEntry) (d : DirEntry),
      extract_ffmpeg true children = some d → isFFmpegDir d = true ∧ d ∈ children) := by
  have hhead : ∀ children : List DirEntry,
      extract_ffmpeg true children = (children.filter isFFmpegDir).head? := by
    intro children
    rw [extract_ffmpeg, if_neg (show ¬(true = false) by simp)]
    cases children.filter isFFmpegDir <;> rfl
  have hfind : ∀ children : List DirEntry,
      extract_ffmpeg true children = children.find? isFFmpegDir := by
    intro children
    rw [hhead, find_eq_head_filter]
  refine ⟨hhead, hfind, ?_, ?_⟩
  · intro children
    rw [hfind children, List.find?_eq_none]
    simp
  · intro children d h
    rw [hfind children] at h
    exact ⟨List.find?_some h, List.mem_of_find?_eq_some h⟩

theorem extract_ffmpeg_spec_witness :
    isFFmpegDir ⟨"FFmpeg-master-latest-linux64-gpl", true⟩ = true ∧
    (⟨"FFmpeg-master-latest-linux64-gpl", true⟩ : DirEntry) ∈
      [⟨"notes.txt", false⟩, ⟨"FFmpeg-master-latest-linux64-gpl", true⟩] :=
  extract_ffmpeg_spec.2.2.2 [⟨"notes.txt", false⟩, ⟨"FFmpeg-master-latest-linux64-gpl", true⟩]
    ⟨"FFmpeg-master-latest-linux64-gpl", true⟩ (by decide)

/-- C1: a failure injected in the move/permission step (the move of the
staged tree into the install path, or the chmod loop) while an existing
install had been backed up makes `install_ffmpeg` report failure, restore
the pre-transaction install contents at the install path, and leave no
backup directory. -/
theorem install_ffmpeg_rollback (fp : FailPoint) (s : FS) (src oldInstall : DirTree)
    (hstaged : s.staged = some src) (hbin : hasBinFFmpeg src = true)
    (hinstall : s.install = some oldInstall)
    (hfp : fp = FailPoint.moveIntoPlace ∨ fp = FailPoint.chmodLoop) :
    (install_ffmpeg fp s).1 = false
    ∧ (install_ffmpeg fp s).2.install = some oldInstall
    ∧ (install_ffmpeg fp s).2.backup = none := by
  obtain ⟨si, sb, sst⟩ := s
  simp only at hstaged hinstall
  subst hstaged hinstall
  rcases hfp with hfp | hfp <;> subst hfp <;>
    simp [install_ffmpeg, installMoveAndChmod, installExcept, hbin]

/-- C2: a staged tree without `bin/ffmpeg` makes `install_ffmpeg` return
`False` with the filesystem (install path, backup path, staged tree)
entirely unchanged, whatever failure is or is not injected. -/
theorem install_ffmpeg_invalid_package (fp : FailPoint) (s : FS) (src : DirTree)
    (hstaged : s.staged = some src) (hbin : hasBinFFmpeg src = false) :
    install_ffmpeg fp s = (false, s) := by
  simp [install_ffmpeg, hstaged, hbin]

/-- C5: if no directory exists at the backup path when `install_ffmpeg`
starts, then none exists when it returns, on every path: success, invalid
package, or a failure injected at any operation. -/
theorem install_ffmpeg_backup_destroyed (fp : FailPoint) (s : FS)
    (h : s.backup = none) :
    ((install_ffmpeg fp s).2).backup = none := by
  obtain ⟨si, sb, sst⟩ := s
  simp only at h
  subst h
  cases sst with
  | none => simp [install_ffmpeg]
  | some src =>
    cases hbin : hasBinFFmpeg src with
    | false => simp [install_ffmpeg, hbin]
    | true =>
      cases si <;> cases fp <;>
        simp [install_ffmpeg, installMoveAndChmod, installExcept, hbin]

/-- C9: when no existing install was present (so no backup was created), a
failed `install_ffmpeg` performs no cleanup: a failure at the final move
leaves the install path absent, and a failure in the chmod loop leaves the
already-moved new tree at the install path, while the call returns `False`
in both cases. -/
theorem install_ffmpeg_no_cleanup_without_backup (s : FS) (src : DirTree)
    (hstaged : s.staged = some src) (hbin : hasBinFFmpeg src = true)
    (hinstall : s.install = none) :
    install_ffmpeg FailPoint.moveIntoPlace s = (false, s)
    ∧ install_ffmpeg FailPoint.chmodLoop s =
        (false, { s with install := some src, staged := none }) := by
  obtain ⟨si, sb, sst⟩ := s
  simp only at hstaged hinstall
  subst hstaged hinstall
  constructor <;> simp [install_ffmpeg, installMoveAndChmod, installExcept, hbin]

theorem install_ffmpeg_rollback_witness :
    (install_ffmpeg FailPoint.moveIntoPlace
      ⟨some ⟨[⟨["bin", "ffmpeg"], 493⟩]⟩, none, some ⟨[⟨["bin", "ffmpeg"], 420⟩]⟩⟩).1 = false
    ∧ (install_ffmpeg FailPoint.moveIntoPlace
      ⟨some ⟨[⟨["bin", "ffmpeg"], 493⟩]⟩, none, some ⟨[⟨["bin", "ffmpeg"], 420⟩]⟩⟩).2.install =
        some ⟨[⟨["bin", "ffmpeg"], 493⟩]⟩
    ∧ (install_ffmpeg FailPoint.moveIntoPlace
      ⟨some ⟨[⟨["bin", "ffmpeg"], 493⟩]⟩, none, some ⟨[⟨["bin", "ffmpeg"], 420⟩]⟩⟩).2.backup =
        none :=
  install_ffmpeg_rollback FailPoint.moveIntoPlace _ _ _ rfl (by decide) rfl (Or.inl rfl)

theorem install_ffmpeg_invalid_package_witness :
    install_ffmpeg FailPoint.noFail
      ⟨some ⟨[⟨["bin", "ffmpeg"], 493⟩]⟩, none, some ⟨[⟨["doc", "readme"], 420⟩]⟩⟩ =
      (false, ⟨some ⟨[⟨["bin", "ffmpeg"], 493⟩]⟩, none, some ⟨[⟨["doc", "readme"], 420⟩]⟩⟩) :=
  install_ffmpeg_invalid_package FailPoint.noFail _ _ rfl (by decide)

theorem install_ffmpeg_backup_destroyed_witness :
    ((install_ffmpeg FailPoint.removeBackup
      ⟨some ⟨[⟨["bin", "ffmpeg"], 493⟩]⟩, none, some ⟨[⟨["bin", "ffmpeg"], 420⟩]⟩⟩).2).backup =
      none :=
  install_ffmpeg_backup_destroyed FailPoint.removeBackup _ rfl

theorem install_ffmpeg_no_cleanup_without_backup_witness :
    install_ffmpeg FailPoint.moveIntoPlace ⟨none, none, some ⟨[⟨["bin", "ffmpeg"], 420⟩]⟩⟩ =
      (false, ⟨none, none, some ⟨[⟨["bin", "ffmpeg"], 420⟩]⟩⟩)
    ∧ install_ffmpeg FailPoint.chmodLoop ⟨none, none, some ⟨[⟨["bin", "ffmpeg"], 420⟩]⟩⟩ =
      (false, { (⟨none, none, some ⟨[⟨["bin", "ffmpeg"], 420⟩]⟩⟩ : FS) with
          install := some ⟨[⟨["bin", "ffmpeg"], 420⟩]⟩, staged := none }) :=
  install_ffmpeg_no_cleanup_without_backup _ _ rfl (by decide) rfl

theorem get_extracted_version_tree (run : Option RunResult) (t : DirTree)
    (h : hasBinFFmpeg t = true) :
    (get_extracted_version run t).2 = chmodPath t ["bin", "ffmpeg"] := by
  cases run with
  | none => simp [get_extracted_version, h]
  | some r =>
    by_cases hr : r.returncode = 0 <;> cases hs : r.stdoutLines <;>
      simp [get_extracted_version, h, hr, hs]

/-- C10: probing the extracted version mutates the staged tree: when the
tree contains `bin/ffmpeg`, that file's mode is `0o755` after the probe
(whatever the subprocess outcome), and every other file is untouched. -/
theorem get_extracted_version_chmod_frame (run : Option RunResult) (t : DirTree)
    (h : hasBinFFmpeg t = true) :
    (∃ f ∈ ((get_extracted_version run t).2).files,
        f.path = ["bin", "ffmpeg"] ∧ f.mode = 0o755)
    ∧ (∀ f ∈ ((get_extracted_version run t).2).files,
        f.path = ["bin", "ffmpeg"] → f.mode = 0o755)
    ∧ (∀ f : FileEntry, f.path ≠ ["bin", "ffmpeg"] →
        (f ∈ ((get_extracted_version run t).2).files ↔ f ∈ t.files)) := by
  rw [get_extracted_version_tree run t h]
  refine ⟨?_, ?_, ?_⟩
  · rw [hasBinFFmpeg, List.any_eq_true] at h
    obtain ⟨g, hg, hpath⟩ := h
    have hpath2 : g.path = ["bin", "ffmpeg"] := by simpa using hpath
    refine ⟨{ g with mode := 0o755 }, ?_, hpath2, rfl⟩
    simp only [chmodPath]
    exact List.mem_map.mpr ⟨g, hg, by rw [if_pos hpath2]⟩
  · intro f hf hpath
    simp only [chmodPath, List.mem_map] at hf
    obtain ⟨g, hg, hgf⟩ := hf
    by_cases hgp : g.path = ["bin", "ffmpeg"]
    · rw [if_pos hgp] at hgf
      rw [← hgf]
    · rw [if_neg hgp] at hgf
      subst hgf
      exact absurd hpath hgp
  · intro f hfp
    simp only [chmodPath, List.mem_map]
    constructor
    · rintro ⟨g, hg, hgf⟩
      by_cases hgp : g.path = ["bin", "ffmpeg"]
      · rw [if_pos hgp] at hgf
        exact absurd (by rw [← hgf]; exact hgp) hfp
      · rw [if_neg hgp] at hgf
        subst hgf
        exact hg
    · intro hf
      exact ⟨f, hf, if_neg hfp⟩

theorem get_extracted_version_chmod_frame_witness :
    (∃ f ∈ ((get_extracted_version none
        ⟨[⟨["bin", "ffmpeg"], 420⟩, ⟨["doc", "readme"], 420⟩]⟩).2).files,
      f.path = ["bin", "ffmpeg"] ∧ f.mode = 0o755)
    ∧ (∀ f ∈ ((get_extracted_version none
        ⟨[⟨["bin", "ffmpeg"], 420⟩, ⟨["doc", "readme"], 420⟩]⟩).2).files,
      f.path = ["bin", "ffmpeg"] → f.mode = 0o755)
    ∧ (∀ f : FileEntry, f.path ≠ ["bin", "ffmpeg"] →
        (f ∈ ((get_extracted_version none
          ⟨[⟨["bin", "ffmpeg"], 420⟩, ⟨["doc", "readme"], 420⟩]⟩).2).files ↔
          f ∈ (⟨[⟨["bin", "ffmpeg"], 420⟩, ⟨["doc", "readme"], 420⟩]⟩ : DirTree).files)) :=
  get_extracted_version_chmod_frame none _ (by decide)

/-- C6: in `update`, the version comparison runs exactly when `force` is
unset and the current version is known (truthy); a not-newer comparison
skips the install and still reports success, with process exit code 0;
`force` set or an unknown current version proceeds to the install without
any comparison. -/
theorem update_comparison_gate (env : UpdateEnv) (force : Bool) (v : String)
    (hd : env.downloadOk = true) (he : env.extractOk = true)
    (hv : env.extractedVersion = some v) (hvne : v ≠ "") :
    ((update env force).2.1 = true ↔
      force = false ∧ ∃ c, env.currentVersion = some c ∧ c ≠ "")
    ∧ (∀ c : String, env.currentVersion = some c → c ≠ "" → force = false →
        compare_versions c v = false →
        update env force = (true, true, false) ∧
          mainExitCode (update env force).1 = 0)
    ∧ (force = true ∨ env.currentVersion = none ∨ env.currentVersion = some ("") →
        update env force = (env.installOk, false, true)) := by
  obtain ⟨cur, dOk, eOk, eVer, iOk⟩ := env
  simp only at hd he hv
  subst hd he hv
  refine ⟨?_, ?_, ?_⟩
  · cases force with
    | true => simp [update, hvne]
    | false =>
      cases cur with
      | none => simp [update, hvne]
      | some c =>
        by_cases hc : c = ""
        · subst hc
          simp [update, hvne]
        · cases hcmp : compare_versions c v <;> simp [update, hvne, hc, hcmp]
  · intro c hcur hc hforce hcmp
    subst hforce
    cases hcur
    simp [update, hvne, hc, hcmp, mainExitCode]
  · intro hcase
    rcases hcase with hf | hcur | hcur
    · subst hf
      simp [update, hvne]
    · subst hcur
      simp [update, hvne]
    · subst hcur
      simp [update, hvne]

theorem update_comparison_gate_witness :
    update ⟨some ("x-20241229"), true, true, some ("y-20241229"), true⟩ false =
      (true, true, false)
    ∧ mainExitCode
        (update ⟨some ("x-20241229"), true, true, some ("y-20241229"), true⟩ false).1 = 0 :=
  (update_comparison_gate ⟨some ("x-20241229"), true, true, some ("y-20241229"), true⟩
      false ("y-20241229") rfl rfl rfl (by decide)).2.1
    "x-20241229" rfl (by decide) rfl (by decide)
